import Mathlib

/-!
# Verification of the pdc-agent certificate lifecycle manager

A shallow embedding of the core of the `grafana/pdc-agent` repository:

* `pkg/ssh/keymanager.go` — the identity lifecycle manager (`CreateKeys`,
  `ensureKeysExist`, `ensureCertExists`, `newKeysRequired`,
  `newCertRequired`, `argumentsHashIsDifferent`, `writeHashFile`);
* `pkg/ssh/ssh.go` — the supervised tunnel runner (`Client.starting`,
  the retry loop body with the reserved fatal exit code 254);
* `pkg/pdc/client.go` — `SigningResponse.UnmarshalJSON`;
* `pkg/retry/retry.go` — `Forever`;
* `pkg/random/random.go` — `Range`.

File contents and external library parsers (`pem.Decode`,
`ssh.ParseAuthorizedKey`, `ssh.ParseKnownHosts`) are modelled abstractly:
file contents are byte strings (`List Nat`), missing files are `none`, and
the parsers are parameters of the model, since the crypto library is an
external collaborator of the program.  Side effects (file writes, signing
calls) are recorded as an explicit event trace, and process time is a `Nat`
parameter (the Unix timestamp the code obtains from `time.Now()`).
-/

namespace PdcAgent

/-- File contents are abstract byte strings. -/
abbrev Bytes := List Nat

/-- Result of `ssh.ParseAuthorizedKey`: either a certificate-typed key
(`*ssh.Certificate`, carrying its `ValidAfter` / `ValidBefore` uint64
timestamps) or a plain (non-certificate) public key. -/
inductive AKey where
  | certKey (validAfter validBefore : Nat)
  | plainKey
  deriving DecidableEq, Repr

/-- The external crypto/ssh and encoding/pem parsing functions, abstracted
as parameters of the model. -/
structure Parsers where
  /-- `pem.Decode` on the private key file returns a non-nil block. -/
  pemOk : Bytes → Bool
  /-- `ssh.ParseAuthorizedKey` -/
  parseAuthKey : Bytes → Option AKey
  /-- `ssh.ParseKnownHosts` succeeds. -/
  knownHostsOk : Bytes → Bool

/-- The five identity files managed under the key-file directory
(`P`, `P.pub`, `P-cert.pub`, the known-hosts file, `P.hash`).
`none` models a file that does not exist / cannot be read. -/
structure FS where
  keyFile : Option Bytes
  pubKeyFile : Option Bytes
  certFile : Option Bytes
  knownHostsFile : Option Bytes
  hashFile : Option Bytes
  deriving DecidableEq, Repr

/-- Observable side effects of one `CreateKeys` invocation: file writes and
signing-client calls. -/
inductive Ev where
  | writeKey
  | writePub
  | signCall
  | writeCert
  | writeKnownHosts
  | writeHash
  deriving DecidableEq, Repr

/-- Errors surfaced by the lifecycle manager.  `wrapped tag e` models
`fmt.Errorf("<context>: %w", e)`; the `tag` distinguishes the context
string. -/
inductive Err where
  | signingFailed
  | fsWriteFailed
  | wrapped (tag : Nat) (e : Err)
  deriving DecidableEq, Repr

/-- Context tag for the wrap `"failed to generate new certificate: %w"`
in `ensureCertExists`. -/
def tagGenerateCert : Nat := 0

/-- Context tag for the wrap `"ensuring certificate exists: %w"` in
`CreateKeys`. -/
def tagEnsuringCert : Nat := 1

/-- Context tag for the wrap `"writing to hash file: %w"` in
`CreateKeys`. -/
def tagWritingHash : Nat := 2

/-- Context tag for the operation-context wrap inside key-pair
generation. -/
def tagKeyGen : Nat := 3

/-- The per-invocation environment of the key manager: the parsers, the
current Unix time, the outcome of the signing client (certificate bytes and
known-hosts bytes on success, `none` on failure), whether key-pair
generation succeeds, and the freshly generated key bytes when it does. -/
structure Env where
  P : Parsers
  now : Nat
  signResult : Option (Bytes × Bytes)
  keyGenOk : Bool
  freshPriv : Bytes
  freshPub : Bytes

/-- `KeyManager.newKeysRequired`: true when the private key file cannot be
read, its PEM does not decode, the public key file cannot be read, or the
public key does not parse as an authorized key. -/
def newKeysRequired (P : Parsers) (fs : FS) : Bool :=
  match fs.keyFile with
  | none => true
  | some kb =>
    if P.pemOk kb = false then true
    else
      match fs.pubKeyFile with
      | none => true
      | some pbk =>
        match P.parseAuthKey pbk with
        | none => true
        | some _ => false

/-- `KeyManager.newCertRequired`: true when the certificate file cannot be
read, does not parse, is not certificate-typed, the current time is outside
the window (`now > ValidBefore` or `now < ValidAfter`), the known-hosts
file cannot be read, or known hosts do not parse. -/
def newCertRequired (P : Parsers) (now : Nat) (fs : FS) : Bool :=
  match fs.certFile with
  | none => true
  | some cb =>
    match P.parseAuthKey cb with
    | none => true
    | some AKey.plainKey => true
    | some (AKey.certKey validAfter validBefore) =>
      if now > validBefore then true
      else if now < validAfter then true
      else
        match fs.knownHostsFile with
        | none => true
        | some kh => !(P.knownHostsOk kh)

/-- `KeyManager.argumentsHashIsDifferent`: true when no hash file is stored
yet, or its contents differ from the hash computed from the current
arguments. -/
def argumentsHashIsDifferent (hash : Bytes) (fs : FS) : Bool :=
  match fs.hashFile with
  | none => true
  | some contents => contents ≠ hash

/-- Modelled from the spec: `KeyManager.generateKeyPair` is absent from the
sources.  Per the spec it generates a fresh key pair and persists it as the
private and public key files, wrapping filesystem errors with operation
context.  Success/failure and the fresh bytes come from the environment. -/
def generateKeyPair (env : Env) (fs : FS) : Except Err FS × List Ev :=
  if env.keyGenOk then
    (Except.ok { fs with keyFile := some env.freshPriv
                         pubKeyFile := some env.freshPub },
     [Ev.writeKey, Ev.writePub])
  else
    (Except.error (Err.wrapped tagKeyGen Err.fsWriteFailed), [])

/-- Modelled from the spec: `KeyManager.generateCert` is absent from the
sources.  Per the spec it calls the signing client to obtain a fresh
certificate and known-hosts bundle and persists both; a signing failure
aborts before any write.  The signing call itself is always recorded. -/
def generateCert (env : Env) (fs : FS) : Except Err FS × List Ev :=
  match env.signResult with
  | none => (Except.error Err.signingFailed, [Ev.signCall])
  | some (cb, kh) =>
    (Except.ok { fs with certFile := some cb, knownHostsFile := some kh },
     [Ev.signCall, Ev.writeCert, Ev.writeKnownHosts])

/-- `KeyManager.ensureCertExists`: when `forceCreate` is set, regenerate
unconditionally; otherwise consult `newCertRequired` and regenerate only
when it reports the certificate invalid.  A generation failure is wrapped
as `"failed to generate new certificate: %w"`. -/
def ensureCertExists (env : Env) (forceCreate : Bool) (fs : FS) :
    Except Err FS × List Ev :=
  if forceCreate then
    match generateCert env fs with
    | (Except.error e, evs) => (Except.error (Err.wrapped tagGenerateCert e), evs)
    | (Except.ok fs2, evs) => (Except.ok fs2, evs)
  else if newCertRequired env.P env.now fs = false then
    (Except.ok fs, [])
  else
    match generateCert env fs with
    | (Except.error e, evs) => (Except.error (Err.wrapped tagGenerateCert e), evs)
    | (Except.ok fs2, evs) => (Except.ok fs2, evs)

/-- `KeyManager.ensureKeysExist`: if neither `ForceKeyFileOverwrite` nor
`newKeysRequired` demands it, do nothing and report that no new
certificate is needed on account of the keys; otherwise create the key
file directory (idempotent) and generate a fresh pair, reporting `true`. -/
def ensureKeysExist (env : Env) (forceCreate : Bool) (fs : FS) :
    Except Err (Bool × FS) × List Ev :=
  let r := forceCreate || newKeysRequired env.P fs
  if r = false then
    (Except.ok (false, fs), [])
  else
    match generateKeyPair env fs with
    | (Except.error e, evs) => (Except.error e, evs)
    | (Except.ok fs2, evs) => (Except.ok (true, fs2), evs)

/-- Modelled from the spec: `KeyManager.writeHashFile` is absent from the
sources; it persists the argument hash to the fingerprint file.  Success
comes from the environment via `hashWriteOk` below. -/
def writeHashFile (hash : Bytes) (fs : FS) : FS :=
  { fs with hashFile := some hash }

/-- `KeyManager.CreateKeys`: the per-invocation state machine.
`argumentHash` is the result of the (absent) `argumentsHash` function — a
content hash over the identity-relevant arguments, taken here as an input.
Mirrors the source: ensure keys exist; force certificate regeneration when
the argument hash differs; ensure the certificate exists (wrapping a
failure as `"ensuring certificate exists: %w"`); finally write the hash
file. -/
def CreateKeys (env : Env) (forceCreate : Bool) (argumentHash : Bytes)
    (fs : FS) : Except Err FS × List Ev :=
  match ensureKeysExist env forceCreate fs with
  | (Except.error e, evs) => (Except.error e, evs)
  | (Except.ok (newCertFromKeys, fs1), evs1) =>
    let newCertRequired2 :=
      newCertFromKeys || argumentsHashIsDifferent argumentHash fs1
    match ensureCertExists env newCertRequired2 fs1 with
    | (Except.error e, evs2) =>
      (Except.error (Err.wrapped tagEnsuringCert e), evs1 ++ evs2)
    | (Except.ok fs2, evs2) =>
      (Except.ok (writeHashFile argumentHash fs2),
       evs1 ++ evs2 ++ [Ev.writeHash])

/-! ## Supervised tunnel runner (`pkg/ssh/ssh.go`, `Client.starting`) -/

/-- `ConnectionLimitReachedCode`: the exit code sent by the pdc server when
the connection limit is reached. -/
def ConnectionLimitReachedCode : Int := 254

/-- What one iteration of the supervisory loop observes after
`cmd.Run()` returns: whether the controlling context is canceled
(`ctx.Err() != nil`) and the subprocess exit code (`none` models
`cmd.ProcessState == nil`). -/
structure IterObs where
  ctxCanceled : Bool
  exitCode : Option Int
  deriving DecidableEq, Repr

/-- The outcome of one iteration of the body passed to `retry.Forever` in
`Client.starting`: return `nil` and stop looping, terminate the whole agent
process (`os.Exit(1)`), or return an error and loop again with backoff. -/
inductive BodyOutcome where
  | stopClean
  | exitAgent
  | retry
  deriving DecidableEq, Repr

/-- The body of the supervisory loop in `Client.starting`, after
`cmd.Run()` returns: first the cancellation check (`ctx.Err() != nil`
returns `nil`), then the fatal exit-code check
(`cmd.ProcessState != nil && ExitCode() == ConnectionLimitReachedCode`
calls `os.Exit(1)`); otherwise the tail of the body (log, re-run
`CreateKeys` without returning its error — modelled from the spec for the
truncated tail: keep trying) returns a non-nil error to continue. -/
def sshLoopBody (o : IterObs) : BodyOutcome :=
  if o.ctxCanceled then BodyOutcome.stopClean
  else if o.exitCode = some ConnectionLimitReachedCode then BodyOutcome.exitAgent
  else BodyOutcome.retry

/-- Result of running the supervisory loop: stopped cleanly after
`launches` subprocess launches, terminated the agent after `launches`
launches, or still running when the observation fuel ran out. -/
inductive LoopResult where
  | stoppedClean (launches : Nat)
  | agentExited (launches : Nat)
  | stillRunning
  deriving DecidableEq, Repr

/-- The supervisory loop driven by `retry.Forever`: iteration `i` launches
the subprocess (its observation is `iters i`) and acts on the body
outcome.  `fuel` bounds how many iterations we observe; the loop itself is
unbounded. -/
def runLoopAux (iters : Nat → IterObs) : Nat → Nat → LoopResult
  | 0, _ => LoopResult.stillRunning
  | fuel + 1, i =>
    match sshLoopBody (iters i) with
    | BodyOutcome.stopClean => LoopResult.stoppedClean (i + 1)
    | BodyOutcome.exitAgent => LoopResult.agentExited (i + 1)
    | BodyOutcome.retry => runLoopAux iters fuel (i + 1)

/-- The supervisory loop started from its first iteration. -/
def runLoop (iters : Nat → IterObs) (fuel : Nat) : LoopResult :=
  runLoopAux iters fuel 0

/-! ## Signing response decoding (`pkg/pdc/client.go`,
`SigningResponse.UnmarshalJSON`) -/

/-- One field of the JSON envelope of a signing response.  The
`certificate` field's string value is represented by the sequence of PEM
block payloads it decodes to; `known_hosts` carries its raw bytes; any
other field name is `unknownField`. -/
inductive JField where
  | certificate (blocks : List Bytes)
  | knownHostsField (v : Bytes)
  | unknownField (name : String)
  deriving DecidableEq, Repr

/-- Whether a field is unknown to the decode target struct. -/
def JField.isUnknown : JField → Bool
  | JField.unknownField _ => true
  | _ => false

/-- The anonymous decode target struct of `UnmarshalJSON`. -/
structure Target where
  certificate : List Bytes
  known_hosts : Bytes
  deriving DecidableEq, Repr

/-- Assigning one recognized JSON field to the decode target (later fields
overwrite earlier ones, as in encoding/json). -/
def applyField (t : Target) : JField → Target
  | JField.certificate bs => { t with certificate := bs }
  | JField.knownHostsField v => { t with known_hosts := v }
  | JField.unknownField _ => t

/-- `json.Decoder` with `DisallowUnknownFields`: any unknown field is a
hard decode error; otherwise fold the fields into the target struct. -/
def decodeStrict (fields : List JField) : Option Target :=
  if fields.any JField.isUnknown then none
  else some (fields.foldl applyField ⟨[], []⟩)

/-- Decode errors of `SigningResponse.UnmarshalJSON`. -/
inductive DecodeErr where
  | jsonError
  | pemNoBlock
  | pemTrailing
  | keyParseError
  | notACertificate
  deriving DecidableEq, Repr

/-- `SigningResponse.UnmarshalJSON`: strict JSON decode, then
`pem.Decode` on the certificate string must yield a block with empty
rest, then `ssh.ParseAuthorizedKey` on the block payload must yield a
certificate-typed key.  On success produces the certificate's validity
window and the known-hosts bytes. -/
def unmarshalSigningResponse (P : Parsers) (fields : List JField) :
    Except DecodeErr ((Nat × Nat) × Bytes) :=
  match decodeStrict fields with
  | none => Except.error DecodeErr.jsonError
  | some target =>
    match target.certificate with
    | [] => Except.error DecodeErr.pemNoBlock
    | b :: rest =>
      if rest ≠ [] then Except.error DecodeErr.pemTrailing
      else
        match P.parseAuthKey b with
        | none => Except.error DecodeErr.keyParseError
        | some AKey.plainKey => Except.error DecodeErr.notACertificate
        | some (AKey.certKey validAfter validBefore) =>
          Except.ok ((validAfter, validBefore), target.known_hosts)

/-! ## Retry driver (`pkg/retry/retry.go`, `Forever`) -/

/-- `retry.Forever`, with the function's successive results given as a
stream: `f k = true` means the `(k+1)`-th call returns a nil error.  The
loop calls `f`, returns when it yields nil, and otherwise sleeps with
backoff and loops; `fuel` bounds how many calls we observe (the loop
itself is unbounded).  Returns the total number of calls made when it
returns within the observed window. -/
def foreverAux (f : Nat → Bool) : Nat → Nat → Option Nat
  | 0, _ => none
  | fuel + 1, calls =>
    if f calls then some (calls + 1)
    else foreverAux f fuel (calls + 1)

/-- `retry.Forever` started from its first call. -/
def forever (f : Nat → Bool) (fuel : Nat) : Option Nat :=
  foreverAux f fuel 0

/-! ## Random range (`pkg/random/random.go`, `Range`) -/

/-- `random.Range`: panics (here `none`) when `min > max`.  The body after
the guard is absent from the sources; modelled from the spec and the
function's own doc comment ("Generates a number between min and max
inclusive"): `min + rand.Intn(max-min+1)`, with the random draw supplied
as `r` and reduced modulo the interval length. -/
def Range (r : Nat) (min max : Int) : Option Int :=
  if min > max then none
  else some (min + (r : Int) % (max - min + 1))

/-! ## Concrete fixtures used by witnesses and counterexamples -/

/-- Concrete parsers: byte string `[2]` parses as a certificate valid on
`[10, 100]`, `[1]` as a plain public key, `[3]` as valid known hosts. -/
def certParsers : Parsers where
  pemOk := fun _ => true
  parseAuthKey := fun b =>
    if b = [2] then some (AKey.certKey 10 100)
    else if b = [1] then some AKey.plainKey
    else none
  knownHostsOk := fun b => b == [3]

/-- A fully valid on-disk state for `certParsers`: readable PEM private
key, parsable public key, certificate `[2]`, known hosts `[3]`, stored
fingerprint `[7]`. -/
def fs0 : FS where
  keyFile := some [0]
  pubKeyFile := some [1]
  certFile := some [2]
  knownHostsFile := some [3]
  hashFile := some [7]

/-- A concrete environment: time 50 (strictly inside the certificate
window), successful signing and key generation. -/
def env0 : Env where
  P := certParsers
  now := 50
  signResult := some ([9], [8])
  keyGenOk := true
  freshPriv := [4]
  freshPub := [5]

/-- A valid on-disk state except that no fingerprint file is stored. -/
def fsNoHash : FS :=
  { fs0 with hashFile := none }

/-- Loop observations whose first two iterations exit abnormally (code 1)
and whose third exits with the reserved connection-limit code 254 while
the context is not canceled. -/
def itersC3 : Nat → IterObs := fun i =>
  if i < 2 then { ctxCanceled := false, exitCode := some 1 }
  else { ctxCanceled := false, exitCode := some 254 }

/-- Loop observations whose first iteration exits abnormally and whose
second observes a canceled context together with exit code 254. -/
def itersC9 : Nat → IterObs := fun i =>
  if i < 1 then { ctxCanceled := false, exitCode := some 1 }
  else { ctxCanceled := true, exitCode := some 254 }

/-- A call stream whose third call (index 2) is the first to succeed. -/
def fC8 : Nat → Bool := fun k => k == 2

/-! ## Helper lemmas -/

/-- The key-existence step never writes the fingerprint file. -/
theorem ensureKeysExist_no_hash_write (env : Env) (forceCreate : Bool)
    (fs : FS) : Ev.writeHash ∉ (ensureKeysExist env forceCreate fs).2 := by
  by_cases hk : env.keyGenOk <;>
    simp [ensureKeysExist, generateKeyPair, hk] <;> split <;> simp

/-- The certificate-ensuring step never writes the fingerprint file. -/
theorem ensureCertExists_no_hash_write (env : Env) (forceCreate : Bool)
    (fs : FS) : Ev.writeHash ∉ (ensureCertExists env forceCreate fs).2 := by
  rcases hs : env.signResult with _ | ⟨cb, kh⟩ <;>
    by_cases hf : forceCreate <;>
    by_cases hc : newCertRequired env.P env.now fs <;>
    simp [ensureCertExists, generateCert, hs, hf, hc]

/-- An error from the key-existence step is the operation-context wrap
produced inside key-pair generation. -/
theorem ensureKeysExist_error_wrapped (env : Env) (forceCreate : Bool)
    (fs : FS) (e : Err)
    (h : (ensureKeysExist env forceCreate fs).1 = Except.error e) :
    e = Err.wrapped tagKeyGen Err.fsWriteFailed := by
  by_cases hk : env.keyGenOk <;>
    simp [ensureKeysExist, generateKeyPair, hk] at h <;> split at h <;> simp_all

/-- A forced certificate-ensuring step issues a signing call. -/
theorem ensureCertExists_forced_signs (env : Env) (fs : FS) :
    Ev.signCall ∈ (ensureCertExists env true fs).2 := by
  unfold ensureCertExists generateCert
  rcases env.signResult with _ | ⟨cb, kh⟩ <;> simp

/-- An error from the certificate-ensuring step is the
`"failed to generate new certificate: %w"` wrap. -/
theorem ensureCertExists_error_wrapped (env : Env) (forceCreate : Bool)
    (fs : FS) (e : Err)
    (h : (ensureCertExists env forceCreate fs).1 = Except.error e) :
    e = Err.wrapped tagGenerateCert Err.signingFailed := by
  rcases hs : env.signResult with _ | ⟨cb, kh⟩ <;>
    by_cases hf : forceCreate <;>
    by_cases hc : newCertRequired env.P env.now fs <;>
    simp_all [ensureCertExists, generateCert, hs, hf, hc]

/-- If the first `n` iterations starting at index `i` all ask for a retry
and iteration `i + n` terminates the agent, the loop run reports agent
termination after exactly `i + n + 1` launches. -/
theorem runLoopAux_exit_at (iters : Nat → IterObs) (n : Nat) :
    ∀ i fuel : Nat,
      (∀ k, k < n → sshLoopBody (iters (i + k)) = BodyOutcome.retry) →
      sshLoopBody (iters (i + n)) = BodyOutcome.exitAgent →
      n < fuel →
      runLoopAux iters fuel i = LoopResult.agentExited (i + n + 1) := by
  induction n with
  | zero =>
    intro i fuel hprev hbody hf
    obtain ⟨fuel2, rfl⟩ : ∃ m, fuel = m + 1 := ⟨fuel - 1, by omega⟩
    simp only [Nat.add_zero] at hbody
    simp [runLoopAux, hbody]
  | succ m ih =>
    intro i fuel hprev hbody hf
    obtain ⟨fuel2, rfl⟩ : ∃ q, fuel = q + 1 := ⟨fuel - 1, by omega⟩
    have h0 : sshLoopBody (iters i) = BodyOutcome.retry := by
      have := hprev 0 (by omega)
      simpa using this
    have hrec := ih (i + 1) fuel2
      (fun k hk => by
        have := hprev (k + 1) (by omega)
        have harith : i + (k + 1) = i + 1 + k := by omega
        rwa [harith] at this)
      (by
        have harith : i + (m + 1) = i + 1 + m := by omega
        rwa [harith] at hbody)
      (by omega)
    have harith2 : i + 1 + m + 1 = i + (m + 1) + 1 := by omega
    rw [runLoopAux, h0, hrec, harith2]

/-- If the first `n` iterations starting at index `i` all ask for a retry
and iteration `i + n` observes cancellation-driven clean stop, the loop
run reports a clean stop after exactly `i + n + 1` launches. -/
theorem runLoopAux_stop_at (iters : Nat → IterObs) (n : Nat) :
    ∀ i fuel : Nat,
      (∀ k, k < n → sshLoopBody (iters (i + k)) = BodyOutcome.retry) →
      sshLoopBody (iters (i + n)) = BodyOutcome.stopClean →
      n < fuel →
      runLoopAux iters fuel i = LoopResult.stoppedClean (i + n + 1) := by
  induction n with
  | zero =>
    intro i fuel hprev hbody hf
    obtain ⟨fuel2, rfl⟩ : ∃ m, fuel = m + 1 := ⟨fuel - 1, by omega⟩
    simp only [Nat.add_zero] at hbody
    simp [runLoopAux, hbody]
  | succ m ih =>
    intro i fuel hprev hbody hf
    obtain ⟨fuel2, rfl⟩ : ∃ q, fuel = q + 1 := ⟨fuel - 1, by omega⟩
    have h0 : sshLoopBody (iters i) = BodyOutcome.retry := by
      have := hprev 0 (by omega)
      simpa using this
    have hrec := ih (i + 1) fuel2
      (fun k hk => by
        have := hprev (k + 1) (by omega)
        have harith : i + (k + 1) = i + 1 + k := by omega
        rwa [harith] at this)
      (by
        have harith : i + (m + 1) = i + 1 + m := by omega
        rwa [harith] at hbody)
      (by omega)
    have harith2 : i + 1 + m + 1 = i + (m + 1) + 1 := by omega
    rw [runLoopAux, h0, hrec, harith2]

/-- If the first `n` calls starting at index `i` fail and call `i + n`
succeeds, the retry driver returns after exactly `i + n + 1` calls. -/
theorem foreverAux_first_success (f : Nat → Bool) (n : Nat) :
    ∀ i fuel : Nat,
      (∀ k, k < n → f (i + k) = false) →
      f (i + n) = true →
      n < fuel →
      foreverAux f fuel i = some (i + n + 1) := by
  induction n with
  | zero =>
    intro i fuel hprev hbody hf
    obtain ⟨fuel2, rfl⟩ : ∃ m, fuel = m + 1 := ⟨fuel - 1, by omega⟩
    simp only [Nat.add_zero] at hbody
    simp [foreverAux, hbody]
  | succ m ih =>
    intro i fuel hprev hbody hf
    obtain ⟨fuel2, rfl⟩ : ∃ q, fuel = q + 1 := ⟨fuel - 1, by omega⟩
    have h0 : f i = false := by
      have := hprev 0 (by omega)
      simpa using this
    have hrec := ih (i + 1) fuel2
      (fun k hk => by
        have := hprev (k + 1) (by omega)
        have harith : i + (k + 1) = i + 1 + k := by omega
        rwa [harith] at this)
      (by
        have harith : i + (m + 1) = i + 1 + m := by omega
        rwa [harith] at hbody)
      (by omega)
    have harith2 : i + 1 + m + 1 = i + (m + 1) + 1 := by omega
    rw [foreverAux, h0]
    simpa [harith2] using hrec

/-- If every call fails, the retry driver never returns, whatever the
observation window. -/
theorem foreverAux_all_fail (f : Nat → Bool) (hall : ∀ k, f k = false) :
    ∀ fuel i : Nat, foreverAux f fuel i = none := by
  intro fuel
  induction fuel with
  | zero => intro i; rfl
  | succ m ih =>
    intro i
    rw [foreverAux, hall i, ih (i + 1)]
    simp

/-! ## Claim theorems -/

/-- C1 (counterexample): with valid key, certificate, known-hosts and
fingerprint files on disk and an unchanged configuration, `CreateKeys`
leaves the state unchanged and makes no signing call, but still performs
one file write — the unconditional rewrite of the fingerprint file at the
end of every invocation.  Since the state is unchanged, the second of two
consecutive calls is this very invocation, and its write trace
`[writeHash]` is not empty: the claim's "zero file writes" fails. -/
theorem c1_zero_writes_counterexample :
    CreateKeys env0 false [7] fs0 = (Except.ok fs0, [Ev.writeHash]) ∧
    ([Ev.writeHash] : List Ev) ≠ [] := by
  constructor
  · rfl
  · simp

/-- C1 (amended): if the key pair is valid, the stored fingerprint equals
the computed one, and the certificate evaluation reports validity, then
`CreateKeys` performs zero signing-client calls and zero writes to the
key, public-key, certificate and known-hosts files; its only write is the
rewrite of the fingerprint file with its existing identical contents, and
the resulting state — in particular the private key file bytes — is
unchanged, so a second consecutive call behaves identically. -/
theorem c1_amended_idempotent (env : Env) (argumentHash : Bytes) (fs : FS)
    (hkeys : newKeysRequired env.P fs = false)
    (hhash : fs.hashFile = some argumentHash)
    (hcert : newCertRequired env.P env.now fs = false) :
    CreateKeys env false argumentHash fs = (Except.ok fs, [Ev.writeHash]) := by
  have h1 : ensureKeysExist env false fs = (Except.ok (false, fs), []) := by
    simp [ensureKeysExist, hkeys]
  have h2 : argumentsHashIsDifferent argumentHash fs = false := by
    simp [argumentsHashIsDifferent, hhash]
  have h3 : ensureCertExists env false fs = (Except.ok fs, []) := by
    simp [ensureCertExists, hcert]
  have h4 : writeHashFile argumentHash fs = fs := by
    cases fs
    simp_all [writeHashFile]
  simp [CreateKeys, h1, h2, h3, h4]

/-- C1 (witness): the amended idempotence theorem applied to the concrete
valid state `fs0` in environment `env0`. -/
theorem c1_amended_witness :
    CreateKeys env0 false [7] fs0 = (Except.ok fs0, [Ev.writeHash]) :=
  c1_amended_idempotent env0 [7] fs0 (by decide) (by decide) (by decide)

/-- C2 (counterexample): the fixture certificate `[2]` has
`validBefore = 100`, and at time exactly 100 the evaluation still reports
the certificate valid (`newCertRequired` is `false`): the source checks
`now > ValidBefore`, a closed window, so a time equal to `validBefore` is
not invalid as the claim states. -/
theorem c2_half_open_counterexample :
    certParsers.parseAuthKey [2] = some (AKey.certKey 10 100) ∧
    newCertRequired certParsers 100 fs0 = false := by
  decide

/-- C2 (amended): the certificate-validity evaluation reports the
certificate valid exactly when the certificate file exists, parses as a
certificate-typed authorized-key entry, the current time lies in the
closed window `[validAfter, validBefore]` — so a time equal to
`validBefore` is still valid — and the known-hosts file exists and
parses; in particular a certificate with `validBefore` in the past or
`validAfter` in the future is reported invalid, and when the evaluation
reports validity the (unforced) certificate-ensuring step makes no
signing call and performs no write. -/
theorem c2_amended_cert_window (env : Env) (fs : FS) :
    (newCertRequired env.P env.now fs = false ↔
      ∃ cb validAfter validBefore kh,
        fs.certFile = some cb ∧
        env.P.parseAuthKey cb = some (AKey.certKey validAfter validBefore) ∧
        validAfter ≤ env.now ∧ env.now ≤ validBefore ∧
        fs.knownHostsFile = some kh ∧ env.P.knownHostsOk kh = true) ∧
    (newCertRequired env.P env.now fs = false →
      ensureCertExists env false fs = (Except.ok fs, [])) := by
  constructor
  · constructor
    · intro h
      rcases hcb : fs.certFile with _ | cb
      · simp [newCertRequired, hcb] at h
      · rcases hpk : env.P.parseAuthKey cb with _ | ak
        · simp [newCertRequired, hcb, hpk] at h
        · cases ak with
          | plainKey => simp [newCertRequired, hcb, hpk] at h
          | certKey va vb =>
            by_cases h1 : env.now > vb
            · simp [newCertRequired, hcb, hpk, h1] at h
            · by_cases h2 : env.now < va
              · simp [newCertRequired, hcb, hpk, h1, h2] at h
              · rcases hkh : fs.knownHostsFile with _ | kh
                · simp [newCertRequired, hcb, hpk, h1, h2, hkh] at h
                · simp [newCertRequired, hcb, hpk, h1, h2, hkh] at h
                  exact ⟨cb, va, vb, kh, rfl, hpk, by omega, by omega, rfl, h⟩
    · rintro ⟨cb, va, vb, kh, hcb, hpk, hva, hvb, hkh, hok⟩
      simp [newCertRequired, hcb, hpk, hkh, hok, Nat.not_lt.mpr hva,
            Nat.not_lt.mpr hvb]
  · intro h
    simp [ensureCertExists, h]

/-- C2 (witness): at time 50, strictly inside the fixture certificate's
window with valid known hosts, the unforced certificate-ensuring step is a
no-op with an empty trace. -/
theorem c2_amended_witness :
    ensureCertExists env0 false fs0 = (Except.ok fs0, []) :=
  (c2_amended_cert_window env0 fs0).2 (by decide)

/-- C3: in every supervisory-loop run whose iteration `n` observes a
subprocess exit with the reserved connection-limit code 254 while the
controlling context is not canceled (all earlier iterations having asked
for a retry), the agent process terminates at that iteration: however much
longer the loop is observed, the run ends in `agentExited` after exactly
`n + 1` subprocess launches — the loop never retries and never launches
the subprocess again. -/
theorem c3_fatal_exit_terminates (iters : Nat → IterObs) (n : Nat)
    (hprev : ∀ k, k < n → sshLoopBody (iters k) = BodyOutcome.retry)
    (hcancel : (iters n).ctxCanceled = false)
    (hcode : (iters n).exitCode = some ConnectionLimitReachedCode) :
    ∀ fuel, n < fuel → runLoop iters fuel = LoopResult.agentExited (n + 1) := by
  intro fuel hf
  have hbody : sshLoopBody (iters n) = BodyOutcome.exitAgent := by
    simp [sshLoopBody, hcancel, hcode]
  have := runLoopAux_exit_at iters n 0 fuel (by simpa using hprev)
    (by simpa using hbody) hf
  simpa [runLoop] using this

/-- C3 (witness): with two abnormal exits followed by a code-254 exit, the
loop terminates the agent after exactly three launches. -/
theorem c3_witness : runLoop itersC3 5 = LoopResult.agentExited 3 :=
  c3_fatal_exit_terminates itersC3 2 (by decide) (by decide) (by decide)
    5 (by decide)

/-- C9: the cancellation check precedes the exit-code check: whenever the
controlling context is canceled by the time the subprocess exits — even
with exit code 254 (no hypothesis constrains the code) — the loop body
returns nil, and the run ends in a clean stop after exactly `n + 1`
launches rather than in agent termination via the fatal-exit path. -/
theorem c9_cancellation_precedes_fatal (iters : Nat → IterObs) (n : Nat)
    (hprev : ∀ k, k < n → sshLoopBody (iters k) = BodyOutcome.retry)
    (hcancel : (iters n).ctxCanceled = true) :
    sshLoopBody (iters n) = BodyOutcome.stopClean ∧
    ∀ fuel, n < fuel → runLoop iters fuel = LoopResult.stoppedClean (n + 1) := by
  have hbody : sshLoopBody (iters n) = BodyOutcome.stopClean := by
    simp [sshLoopBody, hcancel]
  refine ⟨hbody, fun fuel hf => ?_⟩
  have := runLoopAux_stop_at iters n 0 fuel (by simpa using hprev)
    (by simpa using hbody) hf
  simpa [runLoop] using this

/-- C9 (witness): an iteration that observes a canceled context together
with exit code 254 stops the loop cleanly after its two launches. -/
theorem c9_witness :
    sshLoopBody (itersC9 1) = BodyOutcome.stopClean ∧
    runLoop itersC9 4 = LoopResult.stoppedClean 2 := by
  have h := c9_cancellation_precedes_fatal itersC9 1 (by decide) (by decide)
  exact ⟨h.1, h.2 4 (by decide)⟩

/-- C4: decoding a signing-response body succeeds exactly when every JSON
field is one of `certificate` and `known_hosts`, the certificate field
PEM-decodes to exactly one block, and that block's payload parses as a
certificate-typed key; whenever an unknown field is present, the PEM
block count is not one (zero or several), or the payload is not a
certificate, decoding fails with an error and produces no certificate or
known-hosts data. -/
theorem c4_unmarshal_characterization (P : Parsers) (fields : List JField) :
    (∃ r, unmarshalSigningResponse P fields = Except.ok r) ↔
      ((∀ f ∈ fields, JField.isUnknown f = false) ∧
       ∃ b validAfter validBefore,
         (List.foldl applyField ⟨[], []⟩ fields).certificate = [b] ∧
         P.parseAuthKey b = some (AKey.certKey validAfter validBefore)) := by
  by_cases hu : fields.any JField.isUnknown = true
  · rcases List.any_eq_true.mp hu with ⟨f, hf, hft⟩
    simp [unmarshalSigningResponse, decodeStrict, hu]
    intro hall
    exact absurd (hall f hf) (by simp [hft])
  · have hall : ∀ f ∈ fields, JField.isUnknown f = false := by
      intro f hf
      by_contra hne
      exact hu (List.any_eq_true.mpr ⟨f, hf, by simpa using hne⟩)
    rcases hcert : (List.foldl applyField ⟨[], []⟩ fields).certificate
        with _ | ⟨b, rest⟩
    · simp [unmarshalSigningResponse, decodeStrict, hu, hcert, hall]
    · rcases hrest : rest with _ | ⟨b2, rest2⟩
      · rcases hpk : P.parseAuthKey b with _ | ak
        · simp [unmarshalSigningResponse, decodeStrict, hu, hcert, hrest,
                hpk, hall]
        · cases ak with
          | plainKey =>
            simp [unmarshalSigningResponse, decodeStrict, hu, hcert, hrest,
                  hpk, hall]
          | certKey va vb =>
            have hok : unmarshalSigningResponse P fields =
                Except.ok ((va, vb),
                  (List.foldl applyField ⟨[], []⟩ fields).known_hosts) := by
              simp [unmarshalSigningResponse, decodeStrict, hu, hcert, hrest,
                    hpk]
            rw [hok]
            constructor
            · intro _
              exact ⟨hall, b, va, vb, by simp [hcert, hrest], hpk⟩
            · intro _
              exact ⟨_, rfl⟩
      · subst hrest
        simp [unmarshalSigningResponse, decodeStrict, hu, hcert, hall]

/-- C4 (witness): a well-formed envelope with exactly the two recognized
fields and a single certificate-typed PEM block decodes successfully. -/
theorem c4_witness :
    ∃ r, unmarshalSigningResponse certParsers
      [JField.certificate [[2]], JField.knownHostsField [3]] =
      Except.ok r :=
  (c4_unmarshal_characterization certParsers
    [JField.certificate [[2]], JField.knownHostsField [3]]).mpr
    ⟨by decide, [2], 10, 100, by decide, by decide⟩

/-- C5: whenever the fingerprint computed from the current configuration
differs from the persisted fingerprint file's contents, or the fingerprint
file does not exist (that is exactly `argumentsHashIsDifferent` being
true), a `CreateKeys` invocation whose key-generation step does not fail
issues a signing request — for every on-disk certificate and every clock
value, including a time-valid certificate with valid known hosts. -/
theorem c5_fingerprint_mismatch_forces_signing (env : Env)
    (forceCreate : Bool) (argumentHash : Bytes) (fs : FS)
    (hkeygen : env.keyGenOk = true)
    (hdiff : argumentsHashIsDifferent argumentHash fs = true) :
    Ev.signCall ∈ (CreateKeys env forceCreate argumentHash fs).2 := by
  by_cases hr : (forceCreate || newKeysRequired env.P fs) = true
  · have hek : ensureKeysExist env forceCreate fs =
        (Except.ok (true, { fs with keyFile := some env.freshPriv,
                                    pubKeyFile := some env.freshPub }),
         [Ev.writeKey, Ev.writePub]) := by
      simp [ensureKeysExist, hr, generateKeyPair, hkeygen]
    rcases h2 : ensureCertExists env true
        { fs with keyFile := some env.freshPriv,
                  pubKeyFile := some env.freshPub } with ⟨r2, evs2⟩
    have hsign : Ev.signCall ∈ evs2 := by
      have := ensureCertExists_forced_signs env
        { fs with keyFile := some env.freshPriv,
                  pubKeyFile := some env.freshPub }
      rw [h2] at this
      exact this
    cases r2 with
    | error e2 => simp [CreateKeys, hek, h2, hsign]
    | ok fs2 => simp [CreateKeys, hek, h2, hsign]
  · have hbr : forceCreate = false ∧ newKeysRequired env.P fs = false := by
      constructor <;> revert hr <;> cases forceCreate <;>
        cases h : newKeysRequired env.P fs <;> simp
    have hek : ensureKeysExist env forceCreate fs =
        (Except.ok (false, fs), []) := by
      simp [ensureKeysExist, hbr.1, hbr.2]
    rcases h2 : ensureCertExists env true fs with ⟨r2, evs2⟩
    have hsign : Ev.signCall ∈ evs2 := by
      have := ensureCertExists_forced_signs env fs
      rw [h2] at this
      exact this
    cases r2 with
    | error e2 => simp [CreateKeys, hek, hdiff, h2, hsign]
    | ok fs2 => simp [CreateKeys, hek, hdiff, h2, hsign]

/-- C5 (witness): with no fingerprint file stored, the invocation on an
otherwise fully valid state (time-valid certificate, valid known hosts)
issues a signing call. -/
theorem c5_witness :
    Ev.signCall ∈ (CreateKeys env0 false [7] fsNoHash).2 :=
  c5_fingerprint_mismatch_forces_signing env0 false [7] fsNoHash
    (by decide) (by decide)

/-- When key generation runs (forced or required) and succeeds, the event
trace of `CreateKeys` is fully determined by the signing outcome alone —
independent of the on-disk certificate. -/
theorem createKeys_forced_trace (env : Env) (forceCreate : Bool)
    (argumentHash : Bytes) (fs : FS)
    (hkeygen : env.keyGenOk = true)
    (hr : (forceCreate || newKeysRequired env.P fs) = true) :
    (CreateKeys env forceCreate argumentHash fs).2 =
      match env.signResult with
      | none => [Ev.writeKey, Ev.writePub, Ev.signCall]
      | some _ => [Ev.writeKey, Ev.writePub, Ev.signCall, Ev.writeCert,
                   Ev.writeKnownHosts, Ev.writeHash] := by
  rcases hs : env.signResult with _ | ⟨cb2, kh2⟩ <;>
    simp [CreateKeys, ensureKeysExist, hr, generateKeyPair, hkeygen,
          ensureCertExists, generateCert, hs]

/-- C6: whenever a fresh key pair is generated — because the overwrite
flag is set or the existing pair is invalid — and key generation succeeds,
a signing request is issued unconditionally, and the certificate's own
validity is never consulted: the event trace of the invocation is the
same whatever the contents (or absence) of the on-disk certificate
file. -/
theorem c6_fresh_keys_force_resigning (env : Env) (forceCreate : Bool)
    (argumentHash : Bytes) (fs : FS)
    (hkeygen : env.keyGenOk = true)
    (hgen : forceCreate = true ∨ newKeysRequired env.P fs = true) :
    Ev.signCall ∈ (CreateKeys env forceCreate argumentHash fs).2 ∧
    ∀ cb, (CreateKeys env forceCreate argumentHash
             { fs with certFile := cb }).2 =
          (CreateKeys env forceCreate argumentHash fs).2 := by
  have hr : (forceCreate || newKeysRequired env.P fs) = true := by
    rcases hgen with h | h <;> simp [h]
  have hnk : ∀ cb, newKeysRequired env.P { fs with certFile := cb }
      = newKeysRequired env.P fs := by
    intro cb
    cases fs
    rfl
  constructor
  · rw [createKeys_forced_trace env forceCreate argumentHash fs hkeygen hr]
    rcases env.signResult with _ | ⟨cb2, kh2⟩ <;> simp
  · intro cb
    rw [createKeys_forced_trace env forceCreate argumentHash fs hkeygen hr,
        createKeys_forced_trace env forceCreate argumentHash
          { fs with certFile := cb } hkeygen (by rw [hnk cb]; exact hr)]

/-- C6 (witness): with the overwrite flag set on the fully valid state,
the invocation still issues a signing call and its trace ignores the
certificate file. -/
theorem c6_witness :
    Ev.signCall ∈ (CreateKeys env0 true [7] fs0).2 ∧
    ∀ cb, (CreateKeys env0 true [7] { fs0 with certFile := cb }).2 =
          (CreateKeys env0 true [7] fs0).2 :=
  c6_fresh_keys_force_resigning env0 true [7] fs0 (by decide) (Or.inl rfl)

/-- C7: in every `CreateKeys` invocation the fingerprint file is written
only after the certificate-ensuring step has completed successfully,
never before: on success the write trace ends with the single fingerprint
write, preceded by no other fingerprint write; if key generation or
certificate ensuring fails, `CreateKeys` returns a context-wrapped error
and the fingerprint file is not written at all in that invocation. -/
theorem c7_fingerprint_written_last (env : Env) (forceCreate : Bool)
    (argumentHash : Bytes) (fs : FS) :
    (∀ e, (CreateKeys env forceCreate argumentHash fs).1 = Except.error e →
       (∃ tag e2, e = Err.wrapped tag e2) ∧
       Ev.writeHash ∉ (CreateKeys env forceCreate argumentHash fs).2) ∧
    (∀ fs2, (CreateKeys env forceCreate argumentHash fs).1 = Except.ok fs2 →
       ∃ pre, (CreateKeys env forceCreate argumentHash fs).2 =
                pre ++ [Ev.writeHash] ∧
              Ev.writeHash ∉ pre) := by
  rcases h1 : ensureKeysExist env forceCreate fs with ⟨r1, evs1⟩
  have hno1 : Ev.writeHash ∉ evs1 := by
    have := ensureKeysExist_no_hash_write env forceCreate fs
    rw [h1] at this
    exact this
  cases r1 with
  | error e1 =>
    have hw : e1 = Err.wrapped tagKeyGen Err.fsWriteFailed :=
      ensureKeysExist_error_wrapped env forceCreate fs e1 (by rw [h1])
    have hck : CreateKeys env forceCreate argumentHash fs
        = (Except.error e1, evs1) := by
      simp [CreateKeys, h1]
    rw [hck]
    constructor
    · intro e he
      simp at he
      subst he
      exact ⟨⟨tagKeyGen, Err.fsWriteFailed, hw⟩, hno1⟩
    · intro fs2 hfs2
      simp at hfs2
  | ok p =>
    rcases p with ⟨b, fs1⟩
    rcases h2 : ensureCertExists env
        (b || argumentsHashIsDifferent argumentHash fs1) fs1 with ⟨r2, evs2⟩
    have hno2 : Ev.writeHash ∉ evs2 := by
      have := ensureCertExists_no_hash_write env
        (b || argumentsHashIsDifferent argumentHash fs1) fs1
      rw [h2] at this
      exact this
    cases r2 with
    | error e2 =>
      have hck : CreateKeys env forceCreate argumentHash fs
          = (Except.error (Err.wrapped tagEnsuringCert e2), evs1 ++ evs2) := by
        simp [CreateKeys, h1, h2]
      rw [hck]
      constructor
      · intro e he
        simp at he
        subst he
        refine ⟨⟨tagEnsuringCert, e2, rfl⟩, ?_⟩
        simp [hno1, hno2]
      · intro fs2 hfs2
        simp at hfs2
    | ok fs2 =>
      have hck : CreateKeys env forceCreate argumentHash fs
          = (Except.ok (writeHashFile argumentHash fs2),
             evs1 ++ evs2 ++ [Ev.writeHash]) := by
        simp [CreateKeys, h1, h2]
      rw [hck]
      constructor
      · intro e he
        simp at he
      · intro fs3 hfs3
        refine ⟨evs1 ++ evs2, by simp, ?_⟩
        simp [hno1, hno2]

/-- C7 (witness): on the fully valid state the invocation succeeds and its
trace is the fingerprint write preceded by nothing. -/
theorem c7_witness :
    ∃ pre, (CreateKeys env0 false [7] fs0).2 = pre ++ [Ev.writeHash] ∧
           Ev.writeHash ∉ pre :=
  (c7_fingerprint_written_last env0 false [7] fs0).2 fs0 rfl

/-- C8: `retry.Forever` returns exactly when a call of the function
returns nil. With calls indexed from 0, if index `n` is the first
successful call (so the `(n+1)`-th call is the first to return nil), the
driver returns after exactly `n + 1` calls, however much longer it is
observed; and if every call fails, it never returns within any
observation window. -/
theorem c8_forever_returns_on_first_success (f : Nat → Bool) :
    (∀ n, (∀ k, k < n → f k = false) → f n = true →
       ∀ fuel, n < fuel → forever f fuel = some (n + 1)) ∧
    ((∀ k, f k = false) → ∀ fuel, forever f fuel = none) := by
  constructor
  · intro n hprev hsucc fuel hf
    have := foreverAux_first_success f n 0 fuel (by simpa using hprev)
      (by simpa using hsucc) hf
    simpa [forever] using this
  · intro hall fuel
    simpa [forever] using foreverAux_all_fail f hall fuel 0

/-- C8 (witness): on a stream whose third call is the first to succeed,
the driver returns after exactly three calls. -/
theorem c8_witness : forever fC8 10 = some 3 :=
  (c8_forever_returns_on_first_success fC8).1 2 (by decide) (by decide)
    10 (by decide)

/-- C10: `random.Range` panics (modelled as `none`) when `min > max`; for
every `min ≤ max` and every random draw it returns an integer in the
inclusive interval `[min, max]`, and `Range n n = n` for every draw. -/
theorem c10_range_contract (r : Nat) (min max : Int) :
    (min > max → Range r min max = none) ∧
    (min ≤ max → ∃ v, Range r min max = some v ∧ min ≤ v ∧ v ≤ max) ∧
    Range r min min = some min := by
  refine ⟨fun h => by simp [Range, h], fun h => ?_, ?_⟩
  · have hpos : (0 : Int) < max - min + 1 := by omega
    have h0 : 0 ≤ (r : Int) % (max - min + 1) :=
      Int.emod_nonneg _ (by omega)
    have h1 : (r : Int) % (max - min + 1) < max - min + 1 :=
      Int.emod_lt_of_pos _ hpos
    exact ⟨min + (r : Int) % (max - min + 1),
      by simp [Range, Int.not_lt.mpr h], by omega, by omega⟩
  · simp [Range, Int.emod_one]

/-- C10 (witness): the contract applied at draw 5 on the interval
`[2, 4]`. -/
theorem c10_witness :
    ((2 : Int) ≤ 4) ∧
    ∃ v, Range 5 2 4 = some v ∧ (2 : Int) ≤ v ∧ v ≤ 4 :=
  ⟨by norm_num, (c10_range_contract 5 2 4).2.1 (by norm_num)⟩

end PdcAgent
